import Mathlib

/-!
Verification of the Dell CPLD tracker (`fetch_cpld.py`, `utils_catalog_fallback.py`).

The Python code is shallowly embedded: Python/JSON values become the inductive
type `JVal`, fallible Python expressions (attribute errors, type errors) return
`Except PyErr`, and `datetime.date` values become the `SimpleDate` structure.
String operations are modelled on `List Char`; Python's `str.lower` is modelled
as ASCII `Char.toLower` (the repository only manipulates ASCII identifiers).
-/

set_option maxHeartbeats 1000000
set_option maxRecDepth 8192

/-- A Python/JSON value, as produced by `resp.json()` in `fetch_cpld.py`. -/
inductive JVal : Type where
  | null : JVal
  | bool : Bool → JVal
  | num : Int → JVal
  | str : String → JVal
  | arr : List JVal → JVal
  | obj : List (String × JVal) → JVal

/-- A Python exception class (only the classes the embedded code can raise). -/
inductive PyErr : Type where
  | typeError : PyErr
  | attributeError : PyErr
  | keyError : PyErr
deriving DecidableEq

/-- Python truthiness (`bool(v)`) for JSON values. -/
def truthy : JVal → Bool
  | .null => false
  | .bool b => b
  | .num n => n != 0
  | .str s => s.length != 0
  | .arr xs => ! xs.isEmpty
  | .obj fs => ! fs.isEmpty

/-- Value of key `k` in a Python dict given as an association list
(`none` when the key is absent). -/
def objLookup (fs : List (String × JVal)) (k : String) : Option JVal :=
  (fs.find? (fun e => e.1 == k)).map (fun e => e.2)

/-- Models `d.get(k)`: `None` when absent; raises `AttributeError` when `d` is not a dict. -/
def pyGet0 (d : JVal) (k : String) : Except PyErr JVal :=
  match d with
  | .obj fs => .ok ((objLookup fs k).getD .null)
  | _ => .error .attributeError

/-- Models `d.get(k, default)`: the default only when the key is absent. -/
def pyGetD (d : JVal) (k : String) (dflt : JVal) : Except PyErr JVal :=
  match d with
  | .obj fs => .ok ((objLookup fs k).getD dflt)
  | _ => .error .attributeError

/-- Prefix test on character lists (models Python `str.startswith`). -/
def startsWithL : List Char → List Char → Bool
  | [], _ => true
  | _ :: _, [] => false
  | p :: ps, h :: hs => p == h && startsWithL ps hs

/-- Substring test on character lists (models Python `pat in hay` on strings). -/
def containsSub (hay pat : List Char) : Bool :=
  (List.range (hay.length + 1)).any (fun i => startsWithL pat (hay.drop i))

/-- Spec-side substring relation: `pat` occurs contiguously inside `hay`. -/
def SubstrOf (pat hay : List Char) : Prop :=
  ∃ s t, s ++ pat ++ t = hay

/-- ASCII lowercasing of a character list (models Python `str.lower` on the
ASCII strings this repository manipulates). -/
def lowerL (l : List Char) : List Char := l.map Char.toLower

/-- Python `k in v` for a string `k`: key test on dicts, membership on lists,
substring test on strings, `TypeError` otherwise. -/
def pyInStr (k : String) (v : JVal) : Except PyErr Bool :=
  match v with
  | .obj fs => .ok (fs.any (fun e => e.1 == k))
  | .arr xs => .ok (xs.any (fun x => match x with | .str t => t == k | _ => false))
  | .str s => .ok (containsSub s.data k.data)
  | _ => .error .typeError

/-- Models `v[k]` for a string key `k`: dict item access (`KeyError` when absent),
`TypeError` on every other value. -/
def pySubscript (v : JVal) (k : String) : Except PyErr JVal :=
  match v with
  | .obj fs =>
    match objLookup fs k with
    | some x => .ok x
    | none => .error .keyError
  | _ => .error .typeError

/-- Models `for x in v`: elements of a list, keys of a dict, one-character strings of a
string, `TypeError` otherwise. -/
def pyIterate (v : JVal) : Except PyErr (List JVal) :=
  match v with
  | .arr xs => .ok xs
  | .obj fs => .ok (fs.map (fun e => JVal.str e.1))
  | .str s => .ok (s.data.map (fun c => JVal.str (String.mk [c])))
  | _ => .error .typeError

/-- A Python `datetime.date`-style value: year, month, day. -/
structure SimpleDate : Type where
  y : Nat
  m : Nat
  d : Nat
deriving DecidableEq

/-- Models `datetime.min.date()`: 0001-01-01, the oldest representable date. -/
def dateMin : SimpleDate := ⟨1, 1, 1⟩

/-- Lexicographic comparison of dates (Python `date < date`). -/
def dateLtB (a b : SimpleDate) : Bool :=
  decide (a.y < b.y ∨ (a.y = b.y ∧ (a.m < b.m ∨ (a.m = b.m ∧ a.d < b.d))))

/-- Python whitespace characters matched by the regex class `\s` (ASCII part). -/
def pyWsB (c : Char) : Bool :=
  c == ' ' || c == '\t' || c == '\n' || c == '\r' || c == '\x0b' || c == '\x0c'

/-- ASCII digit test (`[0-9]` in the strptime regex). -/
def isDigitB (c : Char) : Bool := 48 ≤ c.toNat && c.toNat ≤ 57

/-- The ordered alternatives of the strptime day regex
`(3[01]|[12]\d|0[1-9]|[1-9])`, each with the unconsumed remainder. -/
def dayAlts (cs : List Char) : List (Nat × List Char) :=
  (match cs with
   | c1 :: c2 :: rest =>
     (if c1 == '3' && (c2 == '0' || c2 == '1') then [(30 + (c2.toNat - 48), rest)] else []) ++
     (if (c1 == '1' || c1 == '2') && isDigitB c2 then
        [((c1.toNat - 48) * 10 + (c2.toNat - 48), rest)] else []) ++
     (if c1 == '0' && isDigitB c2 && c2 != '0' then [(c2.toNat - 48, rest)] else [])
   | _ => []) ++
  (match cs with
   | c1 :: rest => if isDigitB c1 && c1 != '0' then [(c1.toNat - 48, rest)] else []
   | _ => [])

/-- Models `\s+`: consume one or more whitespace characters (greedy). -/
def wsPlus : List Char → Option (List Char)
  | [] => none
  | c :: rest => if pyWsB c then some (rest.dropWhile pyWsB) else none

/-- Lowercased month abbreviations, as in the C-locale strptime `%b` regex. -/
def monthNamesL : List (List Char) :=
  [['j','a','n'], ['f','e','b'], ['m','a','r'], ['a','p','r'], ['m','a','y'],
   ['j','u','n'], ['j','u','l'], ['a','u','g'], ['s','e','p'], ['o','c','t'],
   ['n','o','v'], ['d','e','c']]

/-- Models `%b`: case-insensitively match a three-letter month abbreviation,
returning the month number 1..12. -/
def matchMonth : List Char → Option (Nat × List Char)
  | c1 :: c2 :: c3 :: rest =>
    (monthNamesL.findIdx? (fun nm => nm == [c1.toLower, c2.toLower, c3.toLower])).map
      (fun i => (i + 1, rest))
  | _ => none

/-- Models `%Y`: exactly four digits. -/
def match4Digits : List Char → Option (Nat × List Char)
  | a :: b :: c :: d :: rest =>
    if isDigitB a && isDigitB b && isDigitB c && isDigitB d then
      some ((((a.toNat - 48) * 10 + (b.toNat - 48)) * 10 + (c.toNat - 48)) * 10
              + (d.toNat - 48), rest)
    else none
  | _ => none

/-- The part of the `"%d %b %Y"` pattern after the day: whitespace, month
abbreviation, whitespace, four-digit year, end of string. -/
def afterDay (r1 : List Char) : Option (Nat × Nat) :=
  match wsPlus r1 with
  | none => none
  | some r2 =>
    match matchMonth r2 with
    | none => none
    | some (m, r3) =>
      match wsPlus r3 with
      | none => none
      | some r4 =>
        match match4Digits r4 with
        | none => none
        | some (y, r5) => if r5.isEmpty then some (m, y) else none

/-- First alternative whose continuation succeeds (regex backtracking). -/
def firstSome? : List α → (α → Option β) → Option β
  | [], _ => none
  | x :: xs, f =>
    match f x with
    | some b => some b
    | none => firstSome? xs f

/-- Full match of `"%d %b %Y"` against a character list, returning
(day, month, year) exactly when Python's `_strptime` regex matches. -/
def matchDMY (cs : List Char) : Option (Nat × Nat × Nat) :=
  firstSome? (dayAlts cs) (fun p => (afterDay p.2).map (fun q => (p.1, q.1, q.2)))

/-- Gregorian leap-year rule used by `datetime.date`. -/
def isLeap (y : Nat) : Bool := y % 4 == 0 && (y % 100 != 0 || y % 400 == 0)

/-- Number of days in a month, as validated by the `datetime.date` constructor. -/
def daysInMonth (y m : Nat) : Nat :=
  if m == 2 then (if isLeap y then 29 else 28)
  else if m == 4 || m == 6 || m == 9 || m == 11 then 30
  else 31

/-- The `datetime.date(y, m, d)` constructor's validity check. -/
def dateOK (y m d : Nat) : Bool :=
  1 ≤ y && y ≤ 9999 && 1 ≤ m && m ≤ 12 && 1 ≤ d && d ≤ daysInMonth y m

/-- Models `datetime.date(y, m, d)`: `none` models the `ValueError` branch. -/
def mkDateValid (y m d : Nat) : Option SimpleDate :=
  if dateOK y m d then some ⟨y, m, d⟩ else none

/-- Models `datetime.strptime(s, "%d %b %Y").date()` on an actual string:
`none` models the caught exception (no regex match, or invalid date). -/
def parse_date_str (s : String) : Option SimpleDate :=
  match matchDMY s.data with
  | some (d, m, y) => mkDateValid y m d
  | none => none

/-- The `parse_date` closure of `parse_rows`: `strptime` raises `TypeError`
on any non-string (including `None`), which the closure catches. -/
def parse_date : JVal → Option SimpleDate
  | .str s => parse_date_str s
  | _ => none

/-- Decimal digit character for `n < 10`. -/
def digitChar (n : Nat) : Char := Char.ofNat (48 + n)

/-- Two-digit zero-padded day rendering (`DD`). -/
def render2 (n : Nat) : List Char := [digitChar (n / 10), digitChar (n % 10)]

/-- Four-digit zero-padded year rendering (`YYYY`). -/
def render4 (n : Nat) : List Char :=
  [digitChar (n / 1000 % 10), digitChar (n / 100 % 10), digitChar (n / 10 % 10),
   digitChar (n % 10)]

/-- Capitalized month abbreviation (`Mon`). -/
def monthAbbrChars : Nat → List Char
  | 1 => ['J','a','n'] | 2 => ['F','e','b'] | 3 => ['M','a','r'] | 4 => ['A','p','r']
  | 5 => ['M','a','y'] | 6 => ['J','u','n'] | 7 => ['J','u','l'] | 8 => ['A','u','g']
  | 9 => ['S','e','p'] | 10 => ['O','c','t'] | 11 => ['N','o','v'] | 12 => ['D','e','c']
  | _ => []

/-- The canonical `"DD Mon YYYY"` rendering of a calendar date. -/
def renderDMY (d m y : Nat) : List Char :=
  render2 d ++ ' ' :: monthAbbrChars m ++ ' ' :: render4 y

/-- A normalized driver row: the `OrderedDict` built by `parse_rows`. -/
structure Row : Type where
  ReleaseDate : Option SimpleDate
  ReleaseDateRaw : JVal
  LastUpdate : Option SimpleDate
  UpdateStatus : JVal
  Version : JVal
  Name : JVal
  Category : JVal
  DriverId : JVal
  DownloadUrl : JVal

/-- Models `[f(x) for x in l]` in an exception monad: left to right, first raise wins. -/
def mapME (f : α → Except ε β) : List α → Except ε (List β)
  | [] => .ok []
  | x :: xs =>
    match f x with
    | .error e => .error e
    | .ok y =>
      match mapME f xs with
      | .error e => .error e
      | .ok ys => .ok (y :: ys)

/-- Models `[x for x in l if p(x)]` in an exception monad. -/
def filterME (p : α → Except ε Bool) : List α → Except ε (List α)
  | [] => .ok []
  | x :: xs =>
    match p x with
    | .error e => .error e
    | .ok b =>
      match filterME p xs with
      | .error e => .error e
      | .ok ys => .ok (if b then x :: ys else ys)

/-- Models `(d.get("FileFrmtInfo") or {}).get(k)`: raises `AttributeError` when `d`
is not a dict, or when a truthy `FileFrmtInfo` value is not a dict. -/
def ffiLookup (d : JVal) (k : String) : Except PyErr JVal :=
  match pyGet0 d ("FileFrmtInfo") with
  | .error e => .error e
  | .ok ffi => pyGet0 (if truthy ffi then ffi else JVal.obj []) k

/-- The loop body of `parse_rows`: normalize one raw vendor row `d`.
Field expressions are evaluated in source order; `d.get` raises
`AttributeError` when `d` is not a dict, and so does `.get("FileId")` /
`.get("Path")` when a truthy `FileFrmtInfo` is not a dict. -/
def parse_row_one (d : JVal) : Except PyErr Row :=
  match pyGet0 d ("ReleaseDate") with
  | .error e => .error e
  | .ok rdRaw =>
    match pyGet0 d ("LUPDDate") with
    | .error e => .error e
    | .ok luRaw =>
      match pyGet0 d ("Imp") with
      | .error e => .error e
      | .ok imp =>
        match pyGet0 d ("DellVer") with
        | .error e => .error e
        | .ok ver =>
          match pyGetD d ("DriverName") (.str "") with
          | .error e => .error e
          | .ok nm =>
            match pyGetD d ("Category") (.str "") with
            | .error e => .error e
            | .ok cat =>
              match pyGet0 d ("DriverId") with
              | .error e => .error e
              | .ok did =>
                match
                  (if truthy did then .ok did else
                    match pyGet0 d ("DriverIdEN") with
                    | .error e => .error e
                    | .ok den =>
                      if truthy den then .ok den else ffiLookup d ("FileId")
                    : Except PyErr JVal) with
                | .error e => .error e
                | .ok driverId =>
                  match ffiLookup d ("Path") with
                    | .error e => .error e
                    | .ok path =>
                      .ok { ReleaseDate := parse_date rdRaw
                            ReleaseDateRaw := rdRaw
                            LastUpdate := parse_date luRaw
                            UpdateStatus := imp
                            Version := ver
                            Name := nm
                            Category := cat
                            DriverId := driverId
                            DownloadUrl := path }

/-- Models `parse_rows(driver_json)`: guard clause, then normalize each entry of
`driver_json["DriverListData"]`. -/
def parse_rows (driver_json : JVal) : Except PyErr (List Row) :=
  if ¬ truthy driver_json then .ok [] else
    match pyInStr ("DriverListData") driver_json with
    | .error e => .error e
    | .ok mem =>
      if ¬ mem then .ok [] else
        match pySubscript driver_json ("DriverListData") with
        | .error e => .error e
        | .ok dl =>
          match pyIterate dl with
          | .error e => .error e
          | .ok items => mapME parse_row_one items

/-- Models `(row.get(k) or "").lower()`: the string when truthy, `""` when falsy,
`AttributeError` when the value is truthy but not a string. -/
def pyLowerOrEmpty (v : JVal) : Except PyErr (List Char) :=
  match (if truthy v then v else JVal.str "") with
  | .str s => .ok (lowerL s.data)
  | _ => .error .attributeError

/-- Models `is_cpld(row)`: the CPLD filter predicate of `fetch_cpld.py`. -/
def is_cpld (r : Row) : Except PyErr Bool :=
  match pyLowerOrEmpty r.Name with
  | .error e => .error e
  | .ok name =>
    match pyLowerOrEmpty r.Category with
    | .error e => .error e
    | .ok cat =>
      .ok (containsSub name ("cpld".data) || containsSub cat ("cpld".data) ||
           containsSub name ("complex programmable logic".data))

/-- Keep the better of `b` and `x`, preferring `b` on ties: the comparator
step of the best-so-far accumulation (`candidate` replaces `best` only when
strictly more recent). -/
def gmax (lt : α → α → Bool) (b x : α) : α := if lt b x then x else b

/-- First element of `l` attaining the maximum under `lt` (first-wins fold). -/
def amf (lt : α → α → Bool) (l : List α) : Option α :=
  l.foldl (fun ob x => match ob with | none => some x | some b => some (gmax lt b x)) none

/-- Insert `x` into a descending-sorted list, after any equal elements
(the stability discipline of Python's `list.sort(reverse=True)`). -/
def insertDescBy (lt : α → α → Bool) (x : α) : List α → List α
  | [] => [x]
  | y :: ys => if lt y x then x :: y :: ys else y :: insertDescBy lt x ys

/-- Stable descending sort (models `list.sort(key=..., reverse=True)`). -/
def sortDescBy (lt : α → α → Bool) (l : List α) : List α :=
  l.foldl (fun acc x => insertDescBy lt x acc) []

/-- Sort key used by `find_latest_cpld`: `r.get("ReleaseDate") or
datetime.min.date()`. -/
def rkey (r : Row) : SimpleDate := r.ReleaseDate.getD dateMin

/-- Comparison of rows by that key. -/
def rowLt (a b : Row) : Bool := dateLtB (rkey a) (rkey b)

/-- One OS code's contribution to `find_latest_cpld`: parse the API response
and keep only CPLD rows (the list comprehension with `is_cpld`). -/
def cpldRowsOf (data : JVal) : Except PyErr (List Row) :=
  match parse_rows data with
  | .error e => .error e
  | .ok rows => filterME is_cpld rows

/-- The per-OS-code loop of `find_latest_cpld`, with the accumulated best row.
`(sortDescBy rowLt cpld).head?` is the `cpld_rows.sort(...); cpld_rows[0]`
step guarded by `if not cpld_rows: continue`. -/
def find_latest_go : List JVal → Option Row → Except PyErr (Option Row)
  | [], best => .ok best
  | data :: rest, best =>
    match cpldRowsOf data with
    | .error e => .error e
    | .ok cpld =>
      match (sortDescBy rowLt cpld).head? with
      | none => find_latest_go rest best
      | some cand =>
        find_latest_go rest
          (some (match best with | none => cand | some b => gmax rowLt b cand))

/-- Models `find_latest_cpld`, with the network abstracted: `datas` is the list of
`call_dell_api` results, one per queried OS code, in OS-code order. -/
def find_latest_cpld (datas : List JVal) : Except PyErr (Option Row) :=
  find_latest_go datas none

/-- Outcome of one HTTP attempt inside `call_dell_api`: a response with status,
Content-Type and (already decoded) JSON body, or a raised exception (network
error, or a body that `resp.json()` rejects). -/
inductive Attempt : Type where
  | response (status : Nat) (ctype : String) (body : JVal)
  | exc (msg : String)

/-- The success condition of `call_dell_api`: HTTP 200 and a Content-Type
starting with `application/json`. -/
def isSuccessAttempt : Attempt → Bool
  | .response st ct _ => st == 200 && startsWithL ("application/json".data) ct.data
  | .exc _ => false

/-- What a `call_dell_api` call produces: the returned value (absent on
failure) and the `warnings.warn` message, when one was emitted. -/
structure CallResult : Type where
  result : Option JVal
  warning : Option String

/-- The retry loop of `call_dell_api`. `lastExc` is the `last_exc` variable:
the message of the most recent exception, if any.  On exhaustion a warning is
emitted only `if last_exc:`. -/
def call_api_loop (p o : String) : List Attempt → Option String → CallResult
  | [], lastExc =>
    { result := none,
      warning := lastExc.map
        (fun e => "call_dell_api(" ++ p ++ ", " ++ o ++ ") failed: " ++ e) }
  | .response st ct body :: rest, lastExc =>
    if st == 200 && startsWithL ("application/json".data) ct.data then
      { result := some body, warning := none }
    else call_api_loop p o rest lastExc
  | .exc m :: rest, _ => call_api_loop p o rest (some m)

/-- Models `call_dell_api(productcode, oscode, retries=3)`, the network abstracted as
the sequence of outcomes the successive attempts would observe. -/
def call_dell_api (p o : String) (atts : List Attempt) (retries : Nat := 3) :
    CallResult :=
  call_api_loop p o (atts.take retries) none

/-- Filesystem paths as component lists; a filesystem is the set of regular
files (with contents) plus the set of directories. -/
structure FS : Type where
  files : List (List String × String)
  dirs : List (List String)

/-- Content of the file at `p`, when it exists. -/
def lookupFile (fs : FS) (p : List String) : Option String :=
  ((fs.files.find? (fun e => e.1 == p)).map (fun e => e.2))

/-- All nonempty prefixes of `q`: the directories `mkdir(parents=True)`
ensures exist. -/
def ancestors (q : List String) : List (List String) :=
  (List.range q.length).map (fun i => q.take (i + 1))

/-- Record a directory (`exist_ok=True`: no-op when already present). -/
def addDir (ds : List (List String)) (d : List String) : List (List String) :=
  if d ∈ ds then ds else ds ++ [d]

/-- Models `path.parent.mkdir(parents=True, exist_ok=True)`. -/
def mkdirParents (fs : FS) (p : List String) : FS :=
  { fs with dirs := (ancestors p.dropLast).foldl addDir fs.dirs }

/-- Store content `c` at path `p` (overwrite or create). -/
def setFile (files : List (List String × String)) (p : List String) (c : String) :
    List (List String × String) :=
  match files with
  | [] => [(p, c)]
  | e :: rest => if e.1 == p then (p, c) :: rest else e :: setFile rest p c

/-- Models `write_if_changed(path, content)`: make the parent directories, read the
old content (`""` when the file is absent), and write only when the sha256
digests differ.  Hash comparison is modelled as string equality (sha256 is
injective on the byte strings compared here up to collisions, which the
comparison is designed to rule out). -/
def write_if_changed (fs : FS) (p : List String) (content : String) : FS × Bool :=
  if (lookupFile (mkdirParents fs p) p).getD "" == content
  then (mkdirParents fs p, false)
  else ({ mkdirParents fs p with
          files := setFile (mkdirParents fs p).files p content }, true)

/-- The Python value stored under `"release_date"` before serialization:
`latest.get("ReleaseDate") or ""` is the date object when a date was parsed
(dates are always truthy) and `""` otherwise. -/
inductive PyJsonVal : Type where
  | vdate (d : SimpleDate)
  | vstr (s : String)
deriving DecidableEq

/-- Models `latest.get("ReleaseDate") or ""` in `main`. -/
def release_date_entry (latest : Row) : PyJsonVal :=
  match latest.ReleaseDate with
  | some d => .vdate d
  | none => .vstr ""

/-- Zero-padded rendering helpers for `str(date)`. -/
def padStr (width n : Nat) : String :=
  String.mk ((List.replicate (width - (toString n).length) '0')) ++ toString n

/-- Models `str(datetime.date(y, m, d))`: the ISO `YYYY-MM-DD` form. -/
def pyStrOfDate (d : SimpleDate) : String :=
  padStr 4 d.y ++ "-" ++ padStr 2 d.m ++ "-" ++ padStr 2 d.d

/-- Models `json.dumps(..., default=str)` on that field: dates go through `str`,
strings are kept. -/
def json_default_str : PyJsonVal → String
  | .vdate d => pyStrOfDate d
  | .vstr s => s

mutual
/-- An XML element: tag, text content, child elements
(`xml.etree.ElementTree.Element`). -/
inductive XNode : Type where
  | elem (tag : String) (text : Option String) (children : XForest)
/-- A list of sibling XML elements. -/
inductive XForest : Type where
  | nil : XForest
  | cons (x : XNode) (rest : XForest) : XForest
end

/-- The element's tag. -/
def XNode.tag : XNode → String
  | .elem t _ _ => t

/-- The element's text. -/
def XNode.text : XNode → Option String
  | .elem _ tx _ => tx

/-- A forest as an ordinary list of elements. -/
def XForest.toList : XForest → List XNode
  | .nil => []
  | .cons x rest => x :: rest.toList

/-- The element's children, as a list. -/
def XNode.childList : XNode → List XNode
  | .elem _ _ cs => cs.toList

mutual
/-- All proper descendants of an element, in document order. -/
def XNode.descendants : XNode → List XNode
  | .elem _ _ cs => XForest.descendantsOf cs
/-- All elements at or below a forest, in document order (the element
sequence an ElementTree `.//` path traverses). -/
def XForest.descendantsOf : XForest → List XNode
  | .nil => []
  | .cons x rest => x :: XNode.descendants x ++ XForest.descendantsOf rest
end

/-- Models `elem.findtext(tag)` for a plain child-tag path: text of the first direct
child with that tag (`""` when the child has no text), `None` when there is no
such child. -/
def findtext (x : XNode) (t : String) : Option String :=
  ((x.childList.find? (fun c => c.tag == t)).map (fun c => (c.text).getD ""))

/-- Models `root.findall(".//" + tag)`: all proper descendants with the given tag,
in document order. -/
def findallDesc (x : XNode) (t : String) : List XNode :=
  x.descendants.filter (fun c => c.tag == t)

/-- Models `comp.findall(".//SupportedSystems/Brand/Model")`: `Model` children of
`Brand` children of any descendant `SupportedSystems` element. -/
def findModels (comp : XNode) : List XNode :=
  ((findallDesc comp ("SupportedSystems")).map (fun ss =>
    ((ss.childList.filter (fun b => b.tag == "Brand")).map (fun b =>
      b.childList.filter (fun m => m.tag == "Model"))).flatten)).flatten

/-- The reduced record built for each catalog candidate. -/
structure CatRecord : Type where
  name : Option String
  version : Option String
  release_date : String
  download_url : Option String
  category : Option String
  driver_id : Option String
deriving DecidableEq

/-- Models `model_hint.replace("-", " ").lower()`. -/
def normHint (hint : String) : List Char :=
  lowerL (hint.data.map (fun c => if c == '-' then ' ' else c))

/-- Models `(comp.findtext(t) or "")` as a character list. -/
def findtextOrEmpty (comp : XNode) (t : String) : List Char :=
  ((findtext comp t).getD "").data

/-- The space-joined, lowercased supported-systems model names of a component. -/
def systemsText (comp : XNode) : List Char :=
  lowerL (List.intercalate (" ".data)
    ((findModels comp).map (fun m => ((m.text).getD "").data)))

/-- The record the catalog loop builds for a kept component. -/
def catRecordOf (comp : XNode) : CatRecord :=
  { name := findtext comp ("Name")
    version := findtext comp ("Version")
    release_date := String.mk (findtextOrEmpty comp ("ReleaseDate"))
    download_url := findtext comp ("Path")
    category := findtext comp ("Category")
    driver_id := findtext comp ("DellVer") }

/-- The candidate-collection loop of `best_cpld_for_model_from_catalog`:
document-order scan of `root.findall(".//SoftwareComponent")`, skipping
components without "cpld" in name or category and components whose
supported-systems listing does not contain the normalized hint. -/
def catalogCandidates (root : XNode) (hint : String) : List (String × CatRecord) :=
  (findallDesc root ("SoftwareComponent")).filterMap (fun comp =>
    let cat := lowerL (findtextOrEmpty comp ("Category"))
    let name := lowerL (findtextOrEmpty comp ("Name"))
    if !(containsSub name ("cpld".data)) && !(containsSub cat ("cpld".data)) then none
    else if !(containsSub (systemsText comp) (normHint hint)) then none
    else some (String.mk (findtextOrEmpty comp ("ReleaseDate")), catRecordOf comp))

/-- Python string comparison: lexicographic by code point. -/
def strLtB : List Char → List Char → Bool
  | _, [] => false
  | [], _ :: _ => true
  | a :: as_, b :: bs =>
    a.toNat < b.toNat || (a.toNat == b.toNat && strLtB as_ bs)

/-- Candidate comparison by release-date string (`key=lambda t: t[0]`). -/
def candLt (a b : String × CatRecord) : Bool := strLtB a.1.data b.1.data

/-- Models `best_cpld_for_model_from_catalog(root, model_hint)`: sort candidates by
release-date string descending (stable) and return the first record; `None`
when there is no candidate. -/
def best_cpld_for_model_from_catalog (root : XNode) (hint : String) :
    Option CatRecord :=
  ((sortDescBy candLt (catalogCandidates root hint)).head?).map (fun t => t.2)

/-- A value that is a string or falsy: the shape the spec's data model gives
the name/category fields of a normalized row ("display name, category
string", possibly absent). -/
def StrOrFalsy (v : JVal) : Prop := (∃ s : String, v = .str s) ∨ truthy v = false

/-- Spec-side reading of such a field: the string itself, `""` when absent. -/
def effectiveStr : JVal → List Char
  | .str s => s.data
  | _ => []

/-- Concrete test row: a CPLD row without a release date. -/
def exRowCpld : Row :=
  { ReleaseDate := none, ReleaseDateRaw := JVal.null, LastUpdate := none,
    UpdateStatus := JVal.null, Version := JVal.null,
    Name := JVal.str "Dell EMC Server CPLD Update", Category := JVal.str "",
    DriverId := JVal.null, DownloadUrl := JVal.null }

/-- Test API response for an OS code whose CPLD row is dated 01 Jan 2023. -/
def exDataA : JVal :=
  JVal.obj [("DriverListData", JVal.arr [JVal.obj
    [("DriverName", JVal.str "Dell CPLD Update A"),
     ("ReleaseDate", JVal.str "01 Jan 2023"),
     ("DellVer", JVal.str "1.0")]])]

/-- Test API response for an OS code whose CPLD row is dated 01 Jun 2024. -/
def exDataB : JVal :=
  JVal.obj [("DriverListData", JVal.arr [JVal.obj
    [("DriverName", JVal.str "Dell CPLD Update B"),
     ("ReleaseDate", JVal.str "01 Jun 2024"),
     ("DellVer", JVal.str "1.2")]])]

/-- The row `parse_rows` produces from `exDataA`. -/
def exRowA : Row :=
  { ReleaseDate := some ⟨2023, 1, 1⟩, ReleaseDateRaw := JVal.str "01 Jan 2023",
    LastUpdate := none, UpdateStatus := JVal.null, Version := JVal.str "1.0",
    Name := JVal.str "Dell CPLD Update A", Category := JVal.str "",
    DriverId := JVal.null, DownloadUrl := JVal.null }

/-- The row `parse_rows` produces from `exDataB`. -/
def exRowB : Row :=
  { ReleaseDate := some ⟨2024, 6, 1⟩, ReleaseDateRaw := JVal.str "01 Jun 2024",
    LastUpdate := none, UpdateStatus := JVal.null, Version := JVal.str "1.2",
    Name := JVal.str "Dell CPLD Update B", Category := JVal.str "",
    DriverId := JVal.null, DownloadUrl := JVal.null }

/-- Test response holding, within one OS code, a dateless CPLD row followed by
a CPLD row whose release date is the oldest representable date. -/
def exData6 : JVal :=
  JVal.obj [("DriverListData", JVal.arr
    [JVal.obj [("DriverName", JVal.str "CPLD update no date")],
     JVal.obj [("DriverName", JVal.str "CPLD update year one"),
               ("ReleaseDate", JVal.str "01 Jan 0001")]])]

/-- The dateless row `parse_rows` produces from `exData6`. -/
def exRow6NoDate : Row :=
  { ReleaseDate := none, ReleaseDateRaw := JVal.null, LastUpdate := none,
    UpdateStatus := JVal.null, Version := JVal.null,
    Name := JVal.str "CPLD update no date", Category := JVal.str "",
    DriverId := JVal.null, DownloadUrl := JVal.null }

/-- A raw vendor row shape on which the Row Normalizer cannot raise: a dict
whose `FileFrmtInfo` value, when truthy, is itself a dict. -/
def RowWF (d : JVal) : Prop :=
  ∃ gs : List (String × JVal), d = JVal.obj gs ∧
    (truthy ((objLookup gs ("FileFrmtInfo")).getD JVal.null) = true →
      ∃ hs, (objLookup gs ("FileFrmtInfo")).getD JVal.null = JVal.obj hs)

/-- Spec-side condition for keeping a catalog software component: its name or
category contains "cpld" case-insensitively, and its space-joined
supported-systems model listing contains the hyphen-normalized, lowercased
model hint as a substring. -/
def SpecCatalogKeep (hint : String) (comp : XNode) : Prop :=
  (SubstrOf ("cpld".data) (lowerL (findtextOrEmpty comp ("Name"))) ∨
   SubstrOf ("cpld".data) (lowerL (findtextOrEmpty comp ("Category")))) ∧
  SubstrOf (normHint hint) (systemsText comp)

/-- Test catalog component: an R750 CPLD entry. -/
def exComp750 : XNode :=
  XNode.elem "SoftwareComponent" none
    (XForest.cons (XNode.elem "Name" (some "PowerEdge R750 CPLD") XForest.nil)
     (XForest.cons (XNode.elem "Category" (some "CPLD") XForest.nil)
      (XForest.cons (XNode.elem "ReleaseDate" (some "2021-05-10") XForest.nil)
       (XForest.cons (XNode.elem "SupportedSystems" none
          (XForest.cons (XNode.elem "Brand" none
            (XForest.cons (XNode.elem "Model" (some "PowerEdge R750") XForest.nil)
             XForest.nil)) XForest.nil))
        XForest.nil))))

/-- Test catalog component: an R650 CPLD entry. -/
def exComp650 : XNode :=
  XNode.elem "SoftwareComponent" none
    (XForest.cons (XNode.elem "Name" (some "PowerEdge R650 CPLD") XForest.nil)
     (XForest.cons (XNode.elem "Category" (some "CPLD") XForest.nil)
      (XForest.cons (XNode.elem "ReleaseDate" (some "2022-01-01") XForest.nil)
       (XForest.cons (XNode.elem "SupportedSystems" none
          (XForest.cons (XNode.elem "Brand" none
            (XForest.cons (XNode.elem "Model" (some "PowerEdge R650") XForest.nil)
             XForest.nil)) XForest.nil))
        XForest.nil))))

/-- Test catalog holding both components. -/
def exCatalog : XNode :=
  XNode.elem "Manifest" none (XForest.cons exComp750 (XForest.cons exComp650 XForest.nil))

-- End of the model and its concrete test fixtures; properties follow.

/-- Transitivity of a boolean strict order. -/
def LtTrans (lt : α → α → Bool) : Prop :=
  ∀ a b c, lt a b = true → lt b c = true → lt a c = true

/-- Co-transitivity of the complement ("not-less is transitive"). -/
def LtNegTrans (lt : α → α → Bool) : Prop :=
  ∀ a b c, lt a b = false → lt b c = false → lt a c = false

/-- Irreflexivity of a boolean strict order. -/
def LtIrrefl (lt : α → α → Bool) : Prop := ∀ a, lt a a = false

theorem gmax_assoc {lt : α → α → Bool} (ht : LtTrans lt) (hn : LtNegTrans lt)
    (a b c : α) : gmax lt (gmax lt a b) c = gmax lt a (gmax lt b c) := by
  unfold gmax
  by_cases h1 : lt a b = true
  · by_cases h2 : lt b c = true
    · simp [h1, h2, ht a b c h1 h2]
    · simp at h2
      simp [h1, h2]
  · simp at h1
    by_cases h2 : lt b c = true
    · simp [h1, h2]
    · simp at h2
      simp [h1, h2, hn a b c h1 h2]

theorem foldl_step_some {lt : α → α → Bool} :
    ∀ (xs : List α) (b : α),
      xs.foldl (fun ob x => match ob with
        | none => some x
        | some b => some (gmax lt b x)) (some b) =
      some (xs.foldl (gmax lt) b) := by
  intro xs
  induction xs with
  | nil => intro b; rfl
  | cons x xs ih => intro b; simpa using ih (gmax lt b x)

theorem amf_nil {lt : α → α → Bool} : amf lt [] = none := rfl

theorem amf_cons {lt : α → α → Bool} (x : α) (xs : List α) :
    amf lt (x :: xs) = some (xs.foldl (gmax lt) x) := by
  simpa [amf] using foldl_step_some xs x

theorem amf_eq_none_iff {lt : α → α → Bool} (l : List α) :
    amf lt l = none ↔ l = [] := by
  cases l with
  | nil => simp [amf_nil]
  | cons x xs => simp [amf_cons]

theorem foldl_gmax_eq {lt : α → α → Bool} (ht : LtTrans lt) (hn : LtNegTrans lt) :
    ∀ (l : List α) (b : α),
      l.foldl (gmax lt) b =
        match amf lt l with
        | none => b
        | some a => gmax lt b a := by
  intro l
  induction l with
  | nil => intro b; simp [amf_nil]
  | cons x xs ih =>
    intro b
    have hx := ih x
    have hbx := ih (gmax lt b x)
    rw [List.foldl_cons, hbx, amf_cons, hx]
    cases h : amf lt xs with
    | none => simp
    | some a => simp [gmax_assoc ht hn]

theorem amf_append {lt : α → α → Bool} (ht : LtTrans lt) (hn : LtNegTrans lt)
    (l1 l2 : List α) :
    amf lt (l1 ++ l2) =
      match amf lt l1, amf lt l2 with
      | none, r => r
      | some b, none => some b
      | some b, some a => some (gmax lt b a) := by
  show (l1 ++ l2).foldl _ none = _
  rw [List.foldl_append]
  cases h1 : amf lt l1 with
  | none =>
    have : l1 = [] := (amf_eq_none_iff l1).mp h1
    subst this
    simp [amf]
  | some b =>
    have : l1.foldl (fun ob x => match ob with
        | none => some x
        | some b => some (gmax lt b x)) none = some b := h1
    rw [this, foldl_step_some, foldl_gmax_eq ht hn]
    cases h2 : amf lt l2 <;> simp

theorem foldl_gmax_mem {lt : α → α → Bool} :
    ∀ (xs : List α) (b : α), xs.foldl (gmax lt) b = b ∨ xs.foldl (gmax lt) b ∈ xs := by
  intro xs
  induction xs with
  | nil => intro b; left; rfl
  | cons y ys ih =>
    intro b
    rcases ih (gmax lt b y) with h | h
    · rw [List.foldl_cons, h]
      unfold gmax
      by_cases hby : lt b y = true
      · right; simp [hby]
      · left; simp at hby; simp [hby]
    · right
      rw [List.foldl_cons]
      exact List.mem_cons_of_mem _ h

theorem amf_mem {lt : α → α → Bool} {l : List α} {a : α}
    (h : amf lt l = some a) : a ∈ l := by
  cases l with
  | nil => simp [amf_nil] at h
  | cons x xs =>
    rw [amf_cons] at h
    simp only [Option.some.injEq] at h
    subst h
    rcases @foldl_gmax_mem _ lt xs x with h' | h'
    · rw [h']
      exact List.mem_cons_self x xs
    · exact List.mem_cons_of_mem _ h'

theorem foldl_gmax_max {lt : α → α → Bool} (ht : LtTrans lt) (hn : LtNegTrans lt)
    (hi : LtIrrefl lt) :
    ∀ (xs : List α) (b : α),
      lt (xs.foldl (gmax lt) b) b = false ∧
        ∀ y ∈ xs, lt (xs.foldl (gmax lt) b) y = false := by
  intro xs
  induction xs with
  | nil => intro b; exact ⟨hi b, by simp⟩
  | cons y ys ih =>
    intro b
    obtain ⟨h1, h2⟩ := ih (gmax lt b y)
    rw [List.foldl_cons]
    set r := ys.foldl (gmax lt) (gmax lt b y) with hr
    by_cases hby : lt b y = true
    · have hgy : gmax lt b y = y := by simp [gmax, hby]
      rw [hgy] at h1
      have hrb : lt r b = false := by
        cases hrb : lt r b with
        | false => rfl
        | true => rw [ht r b y hrb hby] at h1; exact h1.symm ▸ rfl
      refine ⟨hrb, ?_⟩
      intro z hz
      rcases List.mem_cons.mp hz with rfl | hz'
      · exact h1
      · exact h2 z hz'
    · simp at hby
      have hgy : gmax lt b y = b := by simp [gmax, hby]
      rw [hgy] at h1
      refine ⟨h1, ?_⟩
      intro z hz
      rcases List.mem_cons.mp hz with rfl | hz'
      · exact hn r b z h1 hby
      · exact h2 z hz'

theorem amf_max {lt : α → α → Bool} (ht : LtTrans lt) (hn : LtNegTrans lt)
    (hi : LtIrrefl lt) {l : List α} {a : α}
    (h : amf lt l = some a) : ∀ y ∈ l, lt a y = false := by
  cases l with
  | nil => simp [amf_nil] at h
  | cons x xs =>
    rw [amf_cons] at h
    simp only [Option.some.injEq] at h
    subst h
    obtain ⟨h1, h2⟩ := foldl_gmax_max ht hn hi xs x
    intro y hy
    rcases List.mem_cons.mp hy with rfl | hy'
    · exact h1
    · exact h2 y hy'

theorem find?_congrL {p q : α → Bool} :
    ∀ (l : List α), (∀ x ∈ l, p x = q x) → l.find? p = l.find? q := by
  intro l
  induction l with
  | nil => intro _; rfl
  | cons x xs ih =>
    intro h
    have hx : p x = q x := h x (List.mem_cons_self x xs)
    rw [List.find?_cons, List.find?_cons, hx]
    cases q x with
    | true => rfl
    | false => exact ih (fun z hz => h z (List.mem_cons_of_mem _ hz))

theorem amf_eq_find? {lt : α → α → Bool} (ht : LtTrans lt) (hn : LtNegTrans lt)
    (hi : LtIrrefl lt) :
    ∀ l : List α, amf lt l = l.find? (fun x => l.all (fun y => ! lt x y)) := by
  intro l
  induction l with
  | nil => rfl
  | cons x xs ih =>
    rw [amf_cons, foldl_gmax_eq ht hn]
    cases hxs : amf lt xs with
    | none =>
      have : xs = [] := (amf_eq_none_iff xs).mp hxs
      subst this
      simp [hi x]
    | some a =>
      have hmem : a ∈ xs := amf_mem hxs
      have hmax : ∀ y ∈ xs, lt a y = false := amf_max ht hn hi hxs
      by_cases hxa : lt x a = true
      · have hgx : gmax lt x a = a := by simp [gmax, hxa]
        show some (gmax lt x a) = _
        rw [hgx]
        have hpx : (x :: xs).all (fun y => ! lt x y) = false := by
          apply Bool.eq_false_iff.mpr
          intro hall
          rw [List.all_eq_true] at hall
          have h1 := hall a (List.mem_cons_of_mem _ hmem)
          rw [hxa] at h1
          simp at h1
        rw [List.find?_cons, hpx]
        show some a = List.find? (fun z => (x :: xs).all (fun y => ! lt z y)) xs
        have hcongr : ∀ z ∈ xs,
            ((x :: xs).all (fun y => ! lt z y)) = (xs.all (fun y => ! lt z y)) := by
          intro z hz
          cases hq : xs.all (fun y => ! lt z y) with
          | true =>
            simp only [List.all_eq_true, Bool.not_eq_true'] at hq ⊢
            intro y hy
            rcases List.mem_cons.mp hy with rfl | hy'
            · cases hzx : lt z y with
              | false => rfl
              | true =>
                exfalso
                have h1 := ht z y a hzx hxa
                rw [hq a hmem] at h1
                exact Bool.false_ne_true h1
            · exact hq y hy'
          | false =>
            simp only [List.all_eq_false] at hq ⊢
            obtain ⟨y, hy, hne⟩ := hq
            exact ⟨y, List.mem_cons_of_mem _ hy, hne⟩
        rw [find?_congrL xs hcongr, ← ih]
        exact hxs.symm
      · simp only [Bool.not_eq_true] at hxa
        have hgx : gmax lt x a = x := by simp [gmax, hxa]
        show some (gmax lt x a) = _
        rw [hgx]
        have hpx : (x :: xs).all (fun y => ! lt x y) = true := by
          simp only [List.all_eq_true, Bool.not_eq_true', List.mem_cons]
          intro y hy
          rcases hy with rfl | hy'
          · exact hi y
          · exact hn x a y hxa (hmax y hy')
        rw [List.find?_cons, hpx]

theorem head?_insertDescBy {lt : α → α → Bool} (x : α) (acc : List α) :
    (insertDescBy lt x acc).head? =
      some (match acc.head? with | none => x | some y => gmax lt y x) := by
  cases acc with
  | nil => rfl
  | cons y ys =>
    show (if lt y x then x :: y :: ys else y :: insertDescBy lt x ys).head? = _
    by_cases h : lt y x = true
    · simp [h, gmax]
    · simp only [Bool.not_eq_true] at h
      simp [h, gmax]

theorem head?_sortDescBy_foldl {lt : α → α → Bool} :
    ∀ (l acc : List α),
      (l.foldl (fun a x => insertDescBy lt x a) acc).head? =
        l.foldl (fun ob x => match ob with
          | none => some x
          | some b => some (gmax lt b x)) acc.head? := by
  intro l
  induction l with
  | nil => intro acc; rfl
  | cons x xs ih =>
    intro acc
    rw [List.foldl_cons, List.foldl_cons, ih, head?_insertDescBy]
    cases acc.head? <;> rfl

/-- The head of the stable descending sort is the first maximum. -/
theorem head?_sortDescBy {lt : α → α → Bool} (l : List α) :
    (sortDescBy lt l).head? = amf lt l :=
  head?_sortDescBy_foldl l []

theorem dateLtB_trans : LtTrans dateLtB := by
  intro a b c h1 h2
  simp only [dateLtB, decide_eq_true_eq] at h1 h2 ⊢
  omega

theorem dateLtB_negtrans : LtNegTrans dateLtB := by
  intro a b c h1 h2
  simp only [dateLtB, decide_eq_false_iff_not] at h1 h2 ⊢
  push_neg at h1 h2 ⊢
  omega

theorem dateLtB_irrefl : LtIrrefl dateLtB := by
  intro a
  simp [dateLtB]

theorem rowLt_trans : LtTrans rowLt :=
  fun a b c h1 h2 => dateLtB_trans (rkey a) (rkey b) (rkey c) h1 h2

theorem rowLt_negtrans : LtNegTrans rowLt :=
  fun a b c h1 h2 => dateLtB_negtrans (rkey a) (rkey b) (rkey c) h1 h2

theorem rowLt_irrefl : LtIrrefl rowLt := fun a => dateLtB_irrefl (rkey a)

theorem strLtB_trans :
    ∀ (a b c : List Char), strLtB a b = true → strLtB b c = true →
      strLtB a c = true := by
  intro a
  induction a with
  | nil =>
    intro b c h1 h2
    cases b with
    | nil => simp [strLtB] at h1
    | cons bb bs =>
      cases c with
      | nil => simp [strLtB] at h2
      | cons cc cs => simp [strLtB]
  | cons aa as ih =>
    intro b c h1 h2
    cases b with
    | nil => simp [strLtB] at h1
    | cons bb bs =>
      cases c with
      | nil => simp [strLtB] at h2
      | cons cc cs =>
        simp only [strLtB, Bool.or_eq_true, Bool.and_eq_true, beq_iff_eq,
          decide_eq_true_eq] at h1 h2 ⊢
        rcases h1 with h1 | ⟨h1e, h1r⟩
        · rcases h2 with h2 | ⟨h2e, h2r⟩
          · left; omega
          · left; omega
        · rcases h2 with h2 | ⟨h2e, h2r⟩
          · left; omega
          · right; exact ⟨by omega, ih bs cs h1r h2r⟩

theorem strLtB_negtrans :
    ∀ (a b c : List Char), strLtB a b = false → strLtB b c = false →
      strLtB a c = false := by
  intro a
  induction a with
  | nil =>
    intro b c h1 h2
    cases b with
    | cons bb bs => simp [strLtB] at h1
    | nil =>
      cases c with
      | nil => simp [strLtB]
      | cons cc cs => simp [strLtB] at h2
  | cons aa as ih =>
    intro b c h1 h2
    cases c with
    | nil => cases b <;> simp [strLtB]
    | cons cc cs =>
      cases b with
      | nil => simp [strLtB] at h2
      | cons bb bs =>
        simp only [strLtB, Bool.or_eq_false_iff, Bool.and_eq_false_iff,
          beq_eq_false_iff_ne, ne_eq, decide_eq_false_iff_not] at h1 h2 ⊢
        constructor
        · omega
        · rcases h1.2 with h1' | h1'
          · left; omega
          · rcases h2.2 with h2' | h2'
            · left; omega
            · by_cases he : aa.toNat = cc.toNat
              · right; exact ih bs cs h1' h2'
              · left; exact he

theorem strLtB_irrefl : ∀ a : List Char, strLtB a a = false := by
  intro a
  induction a with
  | nil => rfl
  | cons aa as ih => simp [strLtB, ih]

theorem candLt_trans : LtTrans candLt :=
  fun a b c h1 h2 => strLtB_trans a.1.data b.1.data c.1.data h1 h2

theorem candLt_negtrans : LtNegTrans candLt :=
  fun a b c h1 h2 => strLtB_negtrans a.1.data b.1.data c.1.data h1 h2

theorem candLt_irrefl : LtIrrefl candLt := fun a => strLtB_irrefl a.1.data

theorem startsWithL_iff :
    ∀ (p h : List Char), startsWithL p h = true ↔ ∃ t, p ++ t = h := by
  intro p
  induction p with
  | nil =>
    intro h
    simp [startsWithL]
  | cons c cs ih =>
    intro h
    cases h with
    | nil =>
      simp only [startsWithL, Bool.false_eq_true, false_iff]
      intro ⟨t, ht⟩
      simp at ht
    | cons d ds =>
      simp only [startsWithL, Bool.and_eq_true, beq_iff_eq, ih, List.cons_append,
        List.cons.injEq]
      constructor
      · intro ⟨he, t, ht⟩
        exact ⟨t, he, ht⟩
      · intro ⟨t, he, ht⟩
        exact ⟨he, t, ht⟩

/-- Models `containsSub` decides exactly the substring relation. -/
theorem containsSub_iff (hay pat : List Char) :
    containsSub hay pat = true ↔ SubstrOf pat hay := by
  unfold containsSub SubstrOf
  rw [List.any_eq_true]
  constructor
  · intro ⟨i, _, hsw⟩
    obtain ⟨t, ht⟩ := (startsWithL_iff pat (hay.drop i)).mp hsw
    refine ⟨hay.take i, t, ?_⟩
    conv_rhs => rw [← List.take_append_drop i hay]
    rw [← ht, List.append_assoc]
  · intro ⟨s, t, hst⟩
    refine ⟨s.length, ?_, ?_⟩
    · rw [List.mem_range]
      have : hay.length = s.length + (pat.length + t.length) := by
        rw [← hst]
        simp [List.length_append]
      omega
    · apply (startsWithL_iff pat (hay.drop s.length)).mpr
      refine ⟨t, ?_⟩
      rw [← hst, List.append_assoc, List.drop_left]

theorem digitChar_toNat : ∀ k, k < 10 → (digitChar k).toNat = 48 + k := by
  intro k hk
  interval_cases k <;> rfl

theorem isDigitB_digitChar : ∀ k, k < 10 → isDigitB (digitChar k) = true := by
  intro k hk
  interval_cases k <;> rfl

theorem pyWsB_digitChar : ∀ k, k < 10 → pyWsB (digitChar k) = false := by
  intro k hk
  interval_cases k <;> rfl

theorem match4Digits_render4 (y : Nat) (hy : y ≤ 9999) :
    match4Digits (render4 y) = some (y, []) := by
  have h1 : y / 1000 % 10 < 10 := Nat.mod_lt _ (by norm_num)
  have h2 : y / 100 % 10 < 10 := Nat.mod_lt _ (by norm_num)
  have h3 : y / 10 % 10 < 10 := Nat.mod_lt _ (by norm_num)
  have h4 : y % 10 < 10 := Nat.mod_lt _ (by norm_num)
  simp only [render4, match4Digits, isDigitB_digitChar _ h1, isDigitB_digitChar _ h2,
    isDigitB_digitChar _ h3, isDigitB_digitChar _ h4, Bool.and_self, Bool.true_and,
    if_true, digitChar_toNat _ h1, digitChar_toNat _ h2, digitChar_toNat _ h3,
    digitChar_toNat _ h4, Option.some.injEq, Prod.mk.injEq, and_true]
  omega

theorem dropWhile_render4 (y : Nat) : (render4 y).dropWhile pyWsB = render4 y := by
  have hws : pyWsB (digitChar (y / 1000 % 10)) = false :=
    pyWsB_digitChar _ (Nat.mod_lt _ (by norm_num))
  show List.dropWhile pyWsB (digitChar (y / 1000 % 10) :: _) = _
  rw [List.dropWhile_cons, hws]
  rfl

theorem wsPlus_space (X : List Char) : wsPlus (' ' :: X) = some (X.dropWhile pyWsB) :=
  rfl

theorem afterDay_mc (y : Nat) (hy : y ≤ 9999) (c : Char) (cs : List Char) (m : Nat)
    (hc : pyWsB c = false)
    (hm : matchMonth (c :: (cs ++ ' ' :: render4 y)) = some (m, ' ' :: render4 y)) :
    afterDay (' ' :: (c :: cs) ++ ' ' :: render4 y) = some (m, y) := by
  have hd4 := match4Digits_render4 y hy
  have hdw := dropWhile_render4 y
  simp only [afterDay, List.cons_append, wsPlus_space, List.dropWhile_cons, hc,
    Bool.false_eq_true, if_false]
  rw [hm]
  simp only [wsPlus_space, hdw, hd4, List.isEmpty_nil, if_true]

theorem afterDay_render (m y : Nat) (hm1 : 1 ≤ m) (hm2 : m ≤ 12) (hy : y ≤ 9999) :
    afterDay (' ' :: (monthAbbrChars m ++ ' ' :: render4 y)) = some (m, y) := by
  interval_cases m <;> exact afterDay_mc y hy _ _ _ rfl rfl

theorem dayAlts_render2 :
    ∀ d, 1 ≤ d → d ≤ 31 → ∀ rest : List Char,
      ∃ tail, dayAlts (render2 d ++ rest) = (d, rest) :: tail := by
  intro d h1 h2
  interval_cases d <;> exact fun rest => ⟨_, rfl⟩

/-- Canonical `"DD Mon YYYY"` strings are matched by the strptime pattern,
yielding back their day, month, and year. -/
theorem matchDMY_render (d m y : Nat) (hd1 : 1 ≤ d) (hd2 : d ≤ 31)
    (hm1 : 1 ≤ m) (hm2 : m ≤ 12) (hy : y ≤ 9999) :
    matchDMY (renderDMY d m y) = some (d, m, y) := by
  obtain ⟨tail, htail⟩ :=
    dayAlts_render2 d hd1 hd2 (' ' :: (monthAbbrChars m ++ ' ' :: render4 y))
  have hAD := afterDay_render m y hm1 hm2 hy
  show firstSome?
      (dayAlts (render2 d ++ (' ' :: (monthAbbrChars m ++ ' ' :: render4 y)))) _ = _
  rw [htail]
  simp only [firstSome?]
  rw [hAD]
  rfl

theorem daysInMonth_le (y m : Nat) : daysInMonth y m ≤ 31 := by
  unfold daysInMonth
  split
  · split <;> norm_num
  · split <;> norm_num

/-- C3: every string in valid `"DD Mon YYYY"` format parses to the
corresponding calendar date (conjunct 1); every other input — a string the
pattern does not match (conjunct 2), a string that matches the pattern but
names no real calendar date (conjunct 3), or an absent value (conjunct 4) —
yields an absent result, with no exception escaping. -/
theorem C3_date_parsing :
    (∀ d m y : Nat, dateOK y m d = true →
        parse_date_str (String.mk (renderDMY d m y)) = some ⟨y, m, d⟩) ∧
    (∀ s : String, matchDMY s.data = none → parse_date_str s = none) ∧
    (∀ (s : String) (d m y : Nat), matchDMY s.data = some (d, m, y) →
        dateOK y m d = false → parse_date_str s = none) ∧
    parse_date JVal.null = none := by
  refine ⟨?_, ?_, ?_, rfl⟩
  · intro d m y h
    have hb := h
    simp only [dateOK, Bool.and_eq_true, decide_eq_true_eq] at hb
    obtain ⟨⟨⟨⟨⟨hy1, hy2⟩, hm1⟩, hm2⟩, hd1⟩, hd2⟩ := hb
    have hd31 : d ≤ 31 := le_trans hd2 (daysInMonth_le y m)
    show (match matchDMY (renderDMY d m y) with
      | some (d, m, y) => mkDateValid y m d
      | none => none) = some ⟨y, m, d⟩
    rw [matchDMY_render d m y hd1 hd31 hm1 hm2 hy2]
    simp [mkDateValid, h]
  · intro s h
    unfold parse_date_str
    rw [h]
  · intro s d m y h1 h2
    unfold parse_date_str
    rw [h1]
    simp [mkDateValid, h2]

/-- Witness for C3 at the spec's example `"15 Mar 2023"`. -/
theorem C3_date_parsing_witness :
    parse_date_str (String.mk (renderDMY 15 3 2023)) = some ⟨2023, 3, 15⟩ :=
  C3_date_parsing.1 15 3 2023 (by decide)

theorem pyLowerOrEmpty_ok (v : JVal) (h : StrOrFalsy v) :
    pyLowerOrEmpty v = .ok (lowerL (effectiveStr v)) := by
  have hstr : ∀ s : String, truthy (JVal.str s) = false → s.data = [] := by
    intro s hs
    have h0 : (s.length != 0) = false := hs
    have h1 : s.length = 0 := bne_eq_false_iff_eq.mp h0
    exact List.length_eq_zero.mp h1
  rcases h with ⟨s, rfl⟩ | hf
  · unfold pyLowerOrEmpty effectiveStr
    by_cases ht : truthy (JVal.str s) = true
    · simp [ht]
    · simp only [Bool.not_eq_true] at ht
      simp [ht, hstr s ht, lowerL]
  · cases v with
    | str s => simp [pyLowerOrEmpty, effectiveStr, hf, hstr s hf, lowerL]
    | null => rfl
    | bool b =>
      cases b with
      | false => rfl
      | true => exact Bool.noConfusion (hf : true = false)
    | num n => simp [pyLowerOrEmpty, effectiveStr, hf, lowerL]
    | arr xs => simp [pyLowerOrEmpty, effectiveStr, hf, lowerL]
    | obj fs => simp [pyLowerOrEmpty, effectiveStr, hf, lowerL]

/-- C2: for every normalized row (name and category being strings or absent,
as the DriverRow data model states), the CPLD filter accepts exactly when the
lowercased name or lowercased category contains `"cpld"`, or the lowercased
name contains `"complex programmable logic"`. -/
theorem C2_cpld_filter (r : Row) (h1 : StrOrFalsy r.Name) (h2 : StrOrFalsy r.Category) :
    (is_cpld r = .ok true ↔
      (SubstrOf ("cpld".data) (lowerL (effectiveStr r.Name)) ∨
       SubstrOf ("cpld".data) (lowerL (effectiveStr r.Category)) ∨
       SubstrOf ("complex programmable logic".data) (lowerL (effectiveStr r.Name)))) := by
  have key : is_cpld r = .ok
      (containsSub (lowerL (effectiveStr r.Name)) ("cpld".data) ||
       containsSub (lowerL (effectiveStr r.Category)) ("cpld".data) ||
       containsSub (lowerL (effectiveStr r.Name)) ("complex programmable logic".data)) := by
    unfold is_cpld
    rw [pyLowerOrEmpty_ok r.Name h1, pyLowerOrEmpty_ok r.Category h2]
  rw [key, Except.ok.injEq, Bool.or_eq_true, Bool.or_eq_true,
    containsSub_iff, containsSub_iff, containsSub_iff, or_assoc]

/-- Witness for C2 at a concrete CPLD-named row. -/
theorem C2_cpld_filter_witness : is_cpld exRowCpld = .ok true :=
  (C2_cpld_filter exRowCpld (Or.inl ⟨_, rfl⟩) (Or.inl ⟨_, rfl⟩)).mpr
    (Or.inl ((containsSub_iff _ _).mp (by rfl)))

theorem find_latest_go_spec :
    ∀ (datas : List JVal) (cplds : List (List Row)) (best : Option Row),
      mapME cpldRowsOf datas = .ok cplds →
      find_latest_go datas best = .ok
        (match best, amf rowLt cplds.flatten with
         | none, r => r
         | some b, none => some b
         | some b, some a => some (gmax rowLt b a)) := by
  intro datas
  induction datas with
  | nil =>
    intro cplds best h
    simp only [mapME, Except.ok.injEq] at h
    subst h
    cases best <;> rfl
  | cons d ds ih =>
    intro cplds best h
    unfold mapME at h
    cases hc : cpldRowsOf d with
    | error e => rw [hc] at h; exact absurd h (by simp)
    | ok c =>
      rw [hc] at h
      cases hcs : mapME cpldRowsOf ds with
      | error e => rw [hcs] at h; exact absurd h (by simp)
      | ok cs =>
        rw [hcs] at h
        simp only [Except.ok.injEq] at h
        subst h
        unfold find_latest_go
        rw [hc]
        show (match (sortDescBy rowLt c).head? with
          | none => find_latest_go ds best
          | some cand => find_latest_go ds
              (some (match best with | none => cand | some b => gmax rowLt b cand))) = _
        rw [head?_sortDescBy]
        cases hamf : amf rowLt c with
        | none =>
          have hce : c = [] := (amf_eq_none_iff c).mp hamf
          subst hce
          dsimp only
          rw [ih cs best hcs]
          simp
        | some cand =>
          dsimp only
          rw [ih cs _ hcs, List.flatten_cons,
            amf_append rowLt_trans rowLt_negtrans c cs.flatten, hamf]
          cases best with
          | none => cases amf rowLt cs.flatten <;> rfl
          | some b =>
            cases amf rowLt cs.flatten with
            | none => rfl
            | some a => simp [gmax_assoc rowLt_trans rowLt_negtrans]

/-- C1: when every queried OS code's response parses and filters cleanly
(`cplds` being the per-OS-code CPLD row lists, in OS-code order), the Latest
Selector returns exactly the first row — in OS-code order, then row order —
whose release-date key is not exceeded by any other row's key: the most
recent row overall, with the earlier OS code winning on exact date equality. -/
theorem C1_latest_selector (datas : List JVal) (cplds : List (List Row))
    (h : mapME cpldRowsOf datas = .ok cplds) :
    find_latest_cpld datas = .ok
      ((cplds.flatten).find?
        (fun x => (cplds.flatten).all (fun y => ! rowLt x y))) := by
  have hgo := find_latest_go_spec datas cplds none h
  unfold find_latest_cpld
  rw [hgo]
  show Except.ok (amf rowLt cplds.flatten) = _
  rw [amf_eq_find? rowLt_trans rowLt_negtrans rowLt_irrefl]

/-- Witness for C1 at the spec's scenario: OS code A yields a 2023 row, OS
code B a 2024 row; the selector returns B's row. -/
theorem C1_latest_selector_witness :
    find_latest_cpld [exDataA, exDataB] = .ok (some exRowB) := by
  have h := C1_latest_selector [exDataA, exDataB] [[exRowA], [exRowB]] (by rfl)
  rw [h]
  rfl

/-- C6 counterexample: within one OS code's filtered rows, a row parsed from
`"01 Jan 0001"` carries the real parsed date 0001-01-01, yet it does not
outrank the dateless row listed before it — both key to 0001-01-01, the
stable sort keeps the dateless row first, and the selector returns it. -/
theorem C6_no_date_ranking_counterexample :
    find_latest_cpld [exData6] = .ok (some exRow6NoDate) ∧
    exRow6NoDate.ReleaseDate = none ∧
    parse_date (JVal.str "01 Jan 0001") = some ⟨1, 1, 1⟩ ∧
    rowLt exRow6NoDate { exRow6NoDate with ReleaseDate := some ⟨1, 1, 1⟩ } = false :=
  ⟨rfl, rfl, rfl, rfl⟩

/-- C6 amended: a row lacking a parsed release date is keyed as 0001-01-01,
the oldest representable date, so a row whose parsed release date is strictly
later than 0001-01-01 always outranks a dateless row; a row whose parsed date
is exactly 0001-01-01 only ties with one. -/
theorem C6_no_date_ranking_amended :
    (∀ r : Row, r.ReleaseDate = none → rkey r = dateMin) ∧
    (∀ (r1 r2 : Row) (dte : SimpleDate), r1.ReleaseDate = some dte →
      dateLtB dateMin dte = true → r2.ReleaseDate = none → rowLt r2 r1 = true) := by
  constructor
  · intro r h
    simp [rkey, h]
  · intro r1 r2 dte h1 h2 h3
    show dateLtB (rkey r2) (rkey r1) = true
    rw [show rkey r2 = dateMin from by simp [rkey, h3],
      show rkey r1 = dte from by simp [rkey, h1]]
    exact h2

/-- Witness for the amended C6 at concrete rows. -/
theorem C6_no_date_ranking_amended_witness : rowLt exRowCpld exRowB = true :=
  C6_no_date_ranking_amended.2 exRowB exRowCpld ⟨2024, 6, 1⟩ rfl (by decide) rfl

/-- C4: whenever the Latest Selector returned a row for a product, the
snapshot's release_date value — `latest.get("ReleaseDate") or ""` passed
through `json.dumps(..., default=str)` — is the ISO `YYYY-MM-DD` rendering of
the parsed date when parsing succeeded, and the empty string when no parsed
date exists (in particular when only an unparseable raw value was present). -/
theorem C4_release_date_serialization (datas : List JVal) (r : Row)
    (hrun : find_latest_cpld datas = .ok (some r)) :
    (∀ dte : SimpleDate, r.ReleaseDate = some dte →
      json_default_str (release_date_entry r) =
        padStr 4 dte.y ++ "-" ++ padStr 2 dte.m ++ "-" ++ padStr 2 dte.d) ∧
    (r.ReleaseDate = none → json_default_str (release_date_entry r) = "") := by
  constructor
  · intro dte h
    simp [release_date_entry, h, json_default_str, pyStrOfDate]
  · intro h
    simp [release_date_entry, h, json_default_str]

/-- Witness for C4: the 2024-06-01 row serializes to `"2024-06-01"`. -/
theorem C4_release_date_serialization_witness :
    json_default_str (release_date_entry exRowB) = "2024-06-01" := by
  have h := (C4_release_date_serialization [exDataA, exDataB] exRowB (by rfl)).1
    ⟨2024, 6, 1⟩ rfl
  rw [h]
  rfl

theorem call_api_loop_spec (p o : String) :
    ∀ (l : List Attempt) (lastExc : Option String),
      (∀ a ∈ l, isSuccessAttempt a = false) →
      (call_api_loop p o l lastExc).result = none ∧
      ((call_api_loop p o l lastExc).warning ≠ none ↔
        (lastExc ≠ none ∨ ∃ a ∈ l, ∃ msg, a = .exc msg)) ∧
      (∀ w, (call_api_loop p o l lastExc).warning = some w →
        ∃ e, w = "call_dell_api(" ++ p ++ ", " ++ o ++ ") failed: " ++ e) := by
  intro l
  induction l with
  | nil =>
    intro lastExc _
    refine ⟨rfl, ?_, ?_⟩
    · cases lastExc <;> simp [call_api_loop]
    · intro w hw
      cases lastExc with
      | none => simp [call_api_loop] at hw
      | some e =>
        simp only [call_api_loop, Option.map_some] at hw
        exact ⟨e, (Option.some.injEq _ _).mp hw.symm ▸ rfl⟩
  | cons a rest ih =>
    intro lastExc hfail
    have hrest : ∀ x ∈ rest, isSuccessAttempt x = false :=
      fun x hx => hfail x (List.mem_cons_of_mem _ hx)
    cases a with
    | response st ct body =>
      have hns : (st == 200 && startsWithL ("application/json".data) ct.data) = false :=
        hfail _ (List.mem_cons_self _ _)
      have hloop : call_api_loop p o (.response st ct body :: rest) lastExc =
          call_api_loop p o rest lastExc := by
        show (if (st == 200 && startsWithL ("application/json".data) ct.data) = true
            then ({ result := some body, warning := none } : CallResult)
            else call_api_loop p o rest lastExc) = call_api_loop p o rest lastExc
        rw [hns]
        simp
      obtain ⟨ih1, ih2, ih3⟩ := ih lastExc hrest
      rw [hloop]
      refine ⟨ih1, ?_, ih3⟩
      rw [ih2]
      constructor
      · intro h
        rcases h with h | ⟨x, hx, msg, hm⟩
        · exact Or.inl h
        · exact Or.inr ⟨x, List.mem_cons_of_mem _ hx, msg, hm⟩
      · intro h
        rcases h with h | ⟨x, hx, msg, hm⟩
        · exact Or.inl h
        · rcases List.mem_cons.mp hx with rfl | hx'
          · exact absurd hm (by simp)
          · exact Or.inr ⟨x, hx', msg, hm⟩
    | exc m =>
      have hloop : call_api_loop p o (.exc m :: rest) lastExc =
          call_api_loop p o rest (some m) := rfl
      obtain ⟨ih1, ih2, ih3⟩ := ih (some m) hrest
      rw [hloop]
      refine ⟨ih1, ?_, ih3⟩
      rw [ih2]
      constructor
      · intro _
        exact Or.inr ⟨.exc m, List.mem_cons_self _ _, m, rfl⟩
      · intro _
        exact Or.inl (by simp)

/-- C5 counterexample: three attempts, all HTTP 204 with no content type and
no raised exception, exhaust the default retry budget; the client returns an
absent result but emits no warning at all, because `warnings.warn` is guarded
by `if last_exc:` and no exception ever occurred. -/
theorem C5_api_client_counterexample :
    call_dell_api "R750" "NAA"
      [.response 204 "" JVal.null, .response 204 "" JVal.null,
       .response 204 "" JVal.null] =
      { result := none, warning := none } := rfl

/-- C5 amended: when every attempt within the retry budget (default 3) fails
the 200-with-JSON success test, the client returns an absent result without
raising; a warning — whose text names the failed product and OS code — is
emitted exactly when at least one attempt raised an exception.  Exhaustion by
bad statuses alone (e.g. only 204s) produces no warning. -/
theorem C5_api_client_amended (p o : String) (atts : List Attempt) (retries : Nat)
    (hfail : ∀ a ∈ atts.take retries, isSuccessAttempt a = false) :
    (call_dell_api p o atts retries).result = none ∧
    ((call_dell_api p o atts retries).warning ≠ none ↔
      ∃ a ∈ atts.take retries, ∃ msg, a = .exc msg) ∧
    (∀ w, (call_dell_api p o atts retries).warning = some w →
      containsSub w.data p.data = true ∧ containsSub w.data o.data = true) := by
  obtain ⟨h1, h2, h3⟩ := call_api_loop_spec p o (atts.take retries) none hfail
  refine ⟨h1, ?_, ?_⟩
  · rw [show call_dell_api p o atts retries =
        call_api_loop p o (atts.take retries) none from rfl, h2]
    simp
  · intro w hw
    obtain ⟨e, he⟩ := h3 w hw
    subst he
    constructor
    · apply (containsSub_iff _ _).mpr
      exact ⟨("call_dell_api(").data, ((", " ++ o ++ ") failed: " ++ e)).data,
        by simp [String.data_append, List.append_assoc]⟩
    · apply (containsSub_iff _ _).mpr
      exact ⟨(("call_dell_api(" ++ p ++ ", ")).data, ((") failed: " ++ e)).data,
        by simp [String.data_append, List.append_assoc]⟩

/-- Witness for the amended C5: one exception among three failing attempts
yields an absent result and a warning naming product and OS code. -/
theorem C5_api_client_amended_witness :
    (call_dell_api "R750" "NAA"
      [.exc "timeout", .response 204 "" JVal.null, .exc "refused"]).result = none ∧
    (call_dell_api "R750" "NAA"
      [.exc "timeout", .response 204 "" JVal.null, .exc "refused"]).warning ≠ none := by
  have h := C5_api_client_amended "R750" "NAA"
    [.exc "timeout", .response 204 "" JVal.null, .exc "refused"] 3
    (by intro a ha; fin_cases ha <;> rfl)
  exact ⟨h.1, h.2.1.mpr ⟨.exc "timeout", by simp, "timeout", rfl⟩⟩

theorem mem_addDir (ds : List (List String)) (d x : List String) (h : x ∈ ds) :
    x ∈ addDir ds d := by
  by_cases hd : d ∈ ds <;> simp [addDir, hd, h]

theorem self_mem_addDir (ds : List (List String)) (d : List String) :
    d ∈ addDir ds d := by
  by_cases hd : d ∈ ds <;> simp [addDir, hd]

theorem mem_foldl_addDir :
    ∀ (l ds : List (List String)) (x : List String),
      x ∈ ds → x ∈ l.foldl addDir ds := by
  intro l
  induction l with
  | nil => intro ds x h; exact h
  | cons y ys ih => intro ds x h; exact ih _ x (mem_addDir ds y x h)

theorem mem_foldl_addDir_self :
    ∀ (l ds : List (List String)) (x : List String),
      x ∈ l → x ∈ l.foldl addDir ds := by
  intro l
  induction l with
  | nil => intro ds x h; cases h
  | cons y ys ih =>
    intro ds x h
    rcases List.mem_cons.mp h with rfl | h'
    · exact mem_foldl_addDir ys (addDir ds x) x (self_mem_addDir ds x)
    · exact ih (addDir ds y) x h'

theorem foldl_addDir_of_mem :
    ∀ (l ds : List (List String)), (∀ x ∈ l, x ∈ ds) → l.foldl addDir ds = ds := by
  intro l
  induction l with
  | nil => intro ds _; rfl
  | cons y ys ih =>
    intro ds h
    have hy : addDir ds y = ds := by
      simp [addDir, h y (List.mem_cons_self _ _)]
    rw [List.foldl_cons, hy]
    exact ih ds (fun x hx => h x (List.mem_cons_of_mem _ hx))

theorem find?_setFile :
    ∀ (files : List (List String × String)) (p : List String) (c : String),
      ((setFile files p c).find? (fun e => e.1 == p)).map (fun e => e.2) = some c := by
  intro files
  induction files with
  | nil => intro p c; simp [setFile, List.find?]
  | cons e rest ih =>
    intro p c
    by_cases he : (e.1 == p) = true
    · simp [setFile, he, List.find?]
    · simp only [Bool.not_eq_true] at he
      simp [setFile, he, List.find?, ih]

/-- C7 counterexample: on a fresh filesystem with empty content, the FIRST
call already reports no change and performs no write (the file is never
created), refuting "the first call reports a change" for every path and
content string. -/
theorem C7_snapshot_writer_counterexample :
    write_if_changed { files := [], dirs := [] } ["docs", "cpld_latest.json"] "" =
      ({ files := [], dirs := [["docs"]] }, false) := rfl

/-- C7 amended: provided the current content of the target (empty string when
the file is absent) differs from the content argument, writing the same
content twice performs exactly one write: the first call writes and reports a
change, the second reports no change and leaves the filesystem — contents and
directories — unmodified. -/
theorem C7_snapshot_writer_amended (fs : FS) (p : List String) (c : String)
    (hdiff : (lookupFile fs p).getD "" ≠ c) :
    (write_if_changed fs p c).2 = true ∧
    (write_if_changed (write_if_changed fs p c).1 p c).2 = false ∧
    (write_if_changed (write_if_changed fs p c).1 p c).1 =
      (write_if_changed fs p c).1 := by
  have hbeq : (((lookupFile fs p).getD "") == c) = false := beq_eq_false_iff_ne.mpr hdiff
  have hlk1 : lookupFile (mkdirParents fs p) p = lookupFile fs p := rfl
  have hfirst : write_if_changed fs p c =
      ({ files := setFile fs.files p c,
         dirs := (ancestors p.dropLast).foldl addDir fs.dirs }, true) := by
    unfold write_if_changed
    rw [hlk1, hbeq]
    simp
    exact ⟨rfl, rfl⟩
  rw [hfirst]
  dsimp only
  have hdirs : (ancestors p.dropLast).foldl addDir
      ((ancestors p.dropLast).foldl addDir fs.dirs) =
      (ancestors p.dropLast).foldl addDir fs.dirs := by
    apply foldl_addDir_of_mem
    intro x hx
    exact mem_foldl_addDir_self _ fs.dirs x hx
  have hmk : mkdirParents
      ({ files := setFile fs.files p c,
         dirs := (ancestors p.dropLast).foldl addDir fs.dirs } : FS) p =
      { files := setFile fs.files p c,
        dirs := (ancestors p.dropLast).foldl addDir fs.dirs } := by
    unfold mkdirParents
    dsimp only
    rw [hdirs]
  have hlk2 : lookupFile
      ({ files := setFile fs.files p c,
         dirs := (ancestors p.dropLast).foldl addDir fs.dirs } : FS) p = some c := by
    unfold lookupFile
    exact find?_setFile fs.files p c
  have hsecond : write_if_changed
      ({ files := setFile fs.files p c,
         dirs := (ancestors p.dropLast).foldl addDir fs.dirs } : FS) p c =
      ({ files := setFile fs.files p c,
         dirs := (ancestors p.dropLast).foldl addDir fs.dirs }, false) := by
    unfold write_if_changed
    rw [hmk, hlk2]
    simp
  exact ⟨rfl, by rw [hsecond], by rw [hsecond]⟩

/-- Witness for the amended C7 on a fresh filesystem with nonempty content. -/
theorem C7_snapshot_writer_amended_witness :
    (write_if_changed { files := [], dirs := [] } ["docs", "cpld_latest.json"]
      "{}").2 = true ∧
    (write_if_changed
      (write_if_changed { files := [], dirs := [] } ["docs", "cpld_latest.json"]
        "{}").1 ["docs", "cpld_latest.json"] "{}").2 = false :=
  have h := C7_snapshot_writer_amended { files := [], dirs := [] }
    ["docs", "cpld_latest.json"] "{}" (by decide)
  ⟨h.1, h.2.1⟩

/-- C10: when the target file does not exist and the content argument is the
empty string, the writer reports no change and never creates the file (the
file table is untouched), while the missing parent directories of the target
path are still created. -/
theorem C10_empty_content_no_write (fs : FS) (p : List String)
    (habs : lookupFile fs p = none) :
    (write_if_changed fs p "").2 = false ∧
    (write_if_changed fs p "").1.files = fs.files ∧
    ∀ q ∈ ancestors p.dropLast, q ∈ (write_if_changed fs p "").1.dirs := by
  have hlk : lookupFile (mkdirParents fs p) p = lookupFile fs p := rfl
  have hcond : (((lookupFile fs p).getD "") == "") = true := by rw [habs]; rfl
  unfold write_if_changed
  rw [hlk, hcond]
  refine ⟨rfl, rfl, ?_⟩
  intro q hq
  exact mem_foldl_addDir_self (ancestors p.dropLast) fs.dirs q hq

/-- Witness for C10 on a fresh filesystem. -/
theorem C10_empty_content_no_write_witness :
    (write_if_changed { files := [], dirs := [] } ["docs", "cpld_latest.json"]
      "").2 = false ∧
    (write_if_changed { files := [], dirs := [] } ["docs", "cpld_latest.json"]
      "").1.files = [] :=
  have h := C10_empty_content_no_write { files := [], dirs := [] }
    ["docs", "cpld_latest.json"] rfl
  ⟨h.1, h.2.1⟩

theorem mapME_ok_of_all {α β ε : Type} {f : α → Except ε β} :
    ∀ l : List α, (∀ x ∈ l, ∃ y, f x = .ok y) → ∃ ys, mapME f l = .ok ys := by
  intro l
  induction l with
  | nil => intro _; exact ⟨[], rfl⟩
  | cons x xs ih =>
    intro h
    obtain ⟨y, hy⟩ := h x (List.mem_cons_self _ _)
    obtain ⟨ys, hys⟩ := ih (fun z hz => h z (List.mem_cons_of_mem _ hz))
    refine ⟨y :: ys, ?_⟩
    unfold mapME
    rw [hy, hys]

theorem ffiLookup_ok (gs : List (String × JVal))
    (hffi : truthy ((objLookup gs ("FileFrmtInfo")).getD JVal.null) = true →
      ∃ hs, (objLookup gs ("FileFrmtInfo")).getD JVal.null = JVal.obj hs) :
    ∀ k : String, ∃ v, ffiLookup (JVal.obj gs) k = .ok v := by
  intro k
  show ∃ v, pyGet0
      (if truthy ((objLookup gs ("FileFrmtInfo")).getD JVal.null)
       then (objLookup gs ("FileFrmtInfo")).getD JVal.null
       else JVal.obj []) k = .ok v
  by_cases ht : truthy ((objLookup gs ("FileFrmtInfo")).getD JVal.null) = true
  · obtain ⟨hs, hh⟩ := hffi ht
    rw [if_pos ht, hh]
    exact ⟨_, rfl⟩
  · rw [if_neg ht]
    exact ⟨_, rfl⟩

theorem parse_row_one_ok (d : JVal) (hwf : RowWF d) :
    ∃ row, parse_row_one d = .ok row := by
  obtain ⟨gs, rfl, hffi⟩ := hwf
  obtain ⟨vf, hvf⟩ := ffiLookup_ok gs hffi ("FileId")
  obtain ⟨vp, hvp⟩ := ffiLookup_ok gs hffi ("Path")
  unfold parse_row_one
  simp only [pyGet0, pyGetD]
  by_cases h1 : truthy ((objLookup gs ("DriverId")).getD JVal.null) = true
  · rw [if_pos h1, hvp]
    exact ⟨_, rfl⟩
  · rw [if_neg h1]
    by_cases h2 : truthy ((objLookup gs ("DriverIdEN")).getD JVal.null) = true
    · rw [if_pos h2, hvp]
      exact ⟨_, rfl⟩
    · rw [if_neg h2, hvf, hvp]
      exact ⟨_, rfl⟩

/-- C8 counterexample: the Row Normalizer raises on malformed input — a
response whose `DriverListData` holds a non-dict row raises `AttributeError`
(`(1).get(...)`), and so does a dict row whose truthy `FileFrmtInfo` is not a
dict. -/
theorem C8_row_normalizer_counterexample :
    parse_rows (JVal.obj [("DriverListData", JVal.arr [JVal.num 1])]) =
      .error .attributeError ∧
    parse_rows (JVal.obj [("DriverListData", JVal.arr
      [JVal.obj [("FileFrmtInfo", JVal.num 5)]])]) = .error .attributeError :=
  ⟨rfl, rfl⟩

/-- C8 amended: the Row Normalizer never raises on rows that are dicts whose
truthy `FileFrmtInfo` values are dicts — every field lookup then degrades to
an absent or default value, however absent or ill-typed the other fields are;
on rows outside that shape it raises `AttributeError`. -/
theorem C8_row_normalizer_amended :
    (∀ d : JVal, RowWF d → ∃ row, parse_row_one d = .ok row) ∧
    (∀ (fs : List (String × JVal)) (items : List JVal),
      objLookup fs ("DriverListData") = some (JVal.arr items) →
      (∀ d ∈ items, RowWF d) →
      ∃ rows, parse_rows (JVal.obj fs) = .ok rows) := by
  constructor
  · exact parse_row_one_ok
  · intro fs items hdl hrows
    obtain ⟨rows, hmap⟩ := mapME_ok_of_all items
      (fun d hd => parse_row_one_ok d (hrows d hd))
    obtain ⟨e, hfind⟩ : ∃ e, fs.find? (fun e => e.1 == "DriverListData") = some e := by
      unfold objLookup at hdl
      cases hf : fs.find? (fun e => e.1 == "DriverListData") with
      | none => rw [hf] at hdl; simp at hdl
      | some e => exact ⟨e, rfl⟩
    have hne : fs ≠ [] := by
      intro hcon
      subst hcon
      simp [List.find?] at hfind
    have htr : truthy (JVal.obj fs) = true := by
      cases fs with
      | nil => exact absurd rfl hne
      | cons a as => rfl
    have hany : (fs.any (fun e => e.1 == "DriverListData")) = true := by
      rw [List.any_eq_true]
      have hmem := List.mem_of_find?_eq_some hfind
      have hp : (e.1 == "DriverListData") = true := by
        have hq := List.find?_some hfind
        simpa using hq
      exact ⟨e, hmem, hp⟩
    refine ⟨rows, ?_⟩
    unfold parse_rows
    rw [htr]
    simp only [pyInStr, pySubscript, pyIterate, hany, hdl, not_true, if_false,
      eq_self_iff_true, Bool.true_eq_false, not_false_iff, if_true]
    exact hmap

/-- Witness for the amended C8: a dict row with an ill-typed date field and no
`FileFrmtInfo` normalizes without raising. -/
theorem C8_row_normalizer_amended_witness :
    (parse_rows (JVal.obj [("DriverListData", JVal.arr
      [JVal.obj [("ReleaseDate", JVal.num 99),
                 ("DriverName", JVal.str "CPLD fw")]])])).isOk = true := by
  obtain ⟨rows, hr⟩ := C8_row_normalizer_amended.2
    [("DriverListData", JVal.arr
      [JVal.obj [("ReleaseDate", JVal.num 99), ("DriverName", JVal.str "CPLD fw")]])]
    [JVal.obj [("ReleaseDate", JVal.num 99), ("DriverName", JVal.str "CPLD fw")]]
    rfl
    (by
      intro d hd
      simp only [List.mem_singleton] at hd
      subst hd
      exact ⟨_, rfl, fun ht => absurd ht (by decide)⟩)
  rw [hr]
  rfl

/-- C9: the Catalog Fallback keeps exactly the software components whose name
or category contains "cpld" case-insensitively and whose concatenated
supported-system model names contain the hyphen-normalized, lowercased hint
(conjunct 3); it returns absent exactly when no component matches (conjunct
1); otherwise it returns the record of a matching component whose
release-date string is lexicographically greatest (conjunct 2). -/
theorem C9_catalog_fallback (root : XNode) (hint : String) :
    (best_cpld_for_model_from_catalog root hint = none ↔
      catalogCandidates root hint = []) ∧
    (catalogCandidates root hint ≠ [] →
      ∃ w, w ∈ catalogCandidates root hint ∧
        best_cpld_for_model_from_catalog root hint = some w.2 ∧
        ∀ u ∈ catalogCandidates root hint, strLtB w.1.data u.1.data = false) ∧
    (∀ c : String × CatRecord, c ∈ catalogCandidates root hint ↔
      ∃ comp, comp ∈ findallDesc root ("SoftwareComponent") ∧
        SpecCatalogKeep hint comp ∧
        c = (String.mk (findtextOrEmpty comp ("ReleaseDate")), catRecordOf comp)) := by
  have hbest : best_cpld_for_model_from_catalog root hint =
      (amf candLt (catalogCandidates root hint)).map (fun t => t.2) := by
    unfold best_cpld_for_model_from_catalog
    rw [head?_sortDescBy]
  refine ⟨?_, ?_, ?_⟩
  · rw [hbest, ← @amf_eq_none_iff _ candLt (catalogCandidates root hint)]
    cases amf candLt (catalogCandidates root hint) <;> simp
  · intro hne
    cases hamf : amf candLt (catalogCandidates root hint) with
    | none => exact absurd ((amf_eq_none_iff _).mp hamf) hne
    | some w =>
      refine ⟨w, amf_mem hamf, ?_,
        amf_max candLt_trans candLt_negtrans candLt_irrefl hamf⟩
      rw [hbest, hamf]
      rfl
  · intro c
    show c ∈ (findallDesc root ("SoftwareComponent")).filterMap _ ↔ _
    rw [List.mem_filterMap]
    constructor
    · rintro ⟨comp, hmem, hf⟩
      dsimp only at hf
      by_cases hA : containsSub (lowerL (findtextOrEmpty comp ("Name"))) ("cpld".data) = true
      · by_cases hC : containsSub (systemsText comp) (normHint hint) = true
        · simp only [hA, hC, Bool.not_true, Bool.false_and, Bool.false_eq_true,
            if_false, Bool.not_true, if_false] at hf
          refine ⟨comp, hmem, ⟨Or.inl ((containsSub_iff _ _).mp hA),
            (containsSub_iff _ _).mp hC⟩, ?_⟩
          simpa using hf.symm
        · simp only [Bool.not_eq_true] at hC
          simp only [hA, hC, Bool.not_true, Bool.false_and, Bool.not_false] at hf
          simp at hf
      · simp only [Bool.not_eq_true] at hA
        by_cases hB : containsSub (lowerL (findtextOrEmpty comp ("Category"))) ("cpld".data) = true
        · by_cases hC : containsSub (systemsText comp) (normHint hint) = true
          · simp only [hA, hB, hC, Bool.not_true, Bool.not_false, Bool.true_and,
              Bool.false_eq_true, if_false] at hf
            refine ⟨comp, hmem, ⟨Or.inr ((containsSub_iff _ _).mp hB),
              (containsSub_iff _ _).mp hC⟩, ?_⟩
            simpa using hf.symm
          · simp only [Bool.not_eq_true] at hC
            simp only [hA, hB, hC, Bool.not_true, Bool.not_false, Bool.true_and] at hf
            simp at hf
        · simp only [Bool.not_eq_true] at hB
          simp only [hA, hB, Bool.not_false, Bool.true_and] at hf
          simp at hf
    · rintro ⟨comp, hmem, ⟨hnc, hsys⟩, heq⟩
      refine ⟨comp, hmem, ?_⟩
      dsimp only
      have hC : containsSub (systemsText comp) (normHint hint) = true :=
        (containsSub_iff _ _).mpr hsys
      rcases hnc with hA | hB
      · have hA' : containsSub (lowerL (findtextOrEmpty comp ("Name"))) ("cpld".data) = true :=
          (containsSub_iff _ _).mpr hA
        simp [hA', hC, heq]
      · have hB' : containsSub (lowerL (findtextOrEmpty comp ("Category"))) ("cpld".data) = true :=
          (containsSub_iff _ _).mpr hB
        simp [hB', hC, heq]

/-- Witness for C9: with hint "R750" only the R750 component matches and its
record is returned; with hint "R9999" nothing matches and the result is
absent. -/
theorem C9_catalog_fallback_witness :
    best_cpld_for_model_from_catalog exCatalog "R750" = some (catRecordOf exComp750) ∧
    best_cpld_for_model_from_catalog exCatalog "R9999" = none := by
  constructor
  · obtain ⟨w, hw, hbest, hmax⟩ :=
      (C9_catalog_fallback exCatalog "R750").2.1 (by decide)
    have hcands : catalogCandidates exCatalog "R750" =
        [("2021-05-10", catRecordOf exComp750)] := by decide
    rw [hcands] at hw
    simp only [List.mem_singleton] at hw
    rw [hbest, hw]
  · exact (C9_catalog_fallback exCatalog "R9999").1.mpr (by decide)
